import Mathlib

/-!
Verification of the `extensible_arena` allocator of the Corvid library
(`corvid::container::arena`), a bump allocator backed by a singly linked
list of blocks, with a thread-local scope mechanism selecting the active
arena.

Machine integers of the source (`size_t`) are modelled as `Nat` with
explicit reduction modulo `2 ^ 64` wherever the source's unsigned
arithmetic can wrap.
-/

namespace Corvid.Arena

/-- The `size_t` wraparound modulus (the source targets a 64-bit `size_t`). -/
def word : Nat := 2 ^ 64

/-- The offset computation of `list_node::allocate`:
`(size + align - 1) & ~(align - 1)` in `size_t` arithmetic.
`align - 1` is `(align + 2^64 - 1) % 2^64` (unsigned wraparound), bitwise
complement of a value `y < 2^64` is `(2^64 - 1) - y`, and the sum
`size + (align - 1)` is again reduced modulo `2^64`. -/
def alignUp (size align : Nat) : Nat :=
  ((size + (align + word - 1) % word) % word) &&& ((word - 1) - (align + word - 1) % word)

/-- One block of the arena: `struct list_node { size_t capacity; size_t size;
pointer next; std::byte data[1]; }`.  The `next` ownership chain is modelled
at the chain level (`chain.rest`), and the raw `data` buffer is not modelled:
all claims are about the `capacity`/`size` bookkeeping and returned offsets
into `data`. -/
structure list_node where
  capacity : Nat
  size : Nat
deriving DecidableEq

/-- `list_node::make(capacity)`: a fresh node with the given capacity and
`size = 0` (the node is value-initialized by `list_node{}`). -/
def list_node.make (capacity : Nat) : list_node :=
  ⟨capacity, 0⟩

/-- `list_node::allocate(n, align)`: carve `n` bytes at alignment `align`
from the unused tail.  Returns the offset into `data` on success (`data +
start` in the source), `none` when there is no room, together with the node
as it stands after the call (the source mutates `size` in place). -/
def list_node.allocate (b : list_node) (n align : Nat) : Option Nat × list_node :=
  let start := alignUp b.size align
  let past := (start + n) % word
  if past > b.capacity then (none, b)
  else (some start, ⟨b.capacity, past⟩)

/-- An arena's block chain: the `pointer head_` slot.  `head` is the node
`head_` points at; `rest` flattens the `next` ownership chain. -/
structure chain where
  head : list_node
  rest : List list_node
deriving DecidableEq

/-- `extensible_arena(capacity)`: the constructor installs
`head_ = list_node::make(capacity)`. -/
def extensible_arena.make (capacity : Nat) : chain :=
  ⟨list_node.make capacity, []⟩

/-- The private static `extensible_arena::allocate(pointer& head, n, align)`:
try the head; on failure build `list_node::make(std::min(head->capacity, n))`,
chain the old head behind it, promote it to head, and retry once, returning
whatever the retry returns. -/
def arena_allocate (c : chain) (n align : Nat) : Option Nat × chain :=
  match c.head.allocate n align with
  | (some start, h) => (some start, ⟨h, c.rest⟩)
  | (none, h) =>
    let new_head := list_node.make (min h.capacity n)
    match new_head.allocate n align with
    | (r, nh) => (r, ⟨nh, h :: c.rest⟩)

/-- The per-thread memory relevant to the arena: the arenas a thread can
reach (indexed by position, standing in for the address `&arena.head_`) and
the thread-local `tls_head` slot (`none` models the null pointer it holds
before any scope is created). -/
structure arena_state where
  arenas : List chain
  tls_head : Option Nat
deriving DecidableEq

/-- An `extensible_arena::scope` object: its single member
`pointer* old_head`. -/
structure scope where
  old_head : Nat
deriving DecidableEq

/-- `scope::scope(extensible_arena& arena)`: the member initializer
`old_head(&arena.head_)` stores the address of the *constructor argument's*
head slot, and the body installs that same address into `tls_head`. -/
def scope.ctor (st : arena_state) (a : Nat) : arena_state × scope :=
  ({ st with tls_head := some a }, ⟨a⟩)

/-- `scope::~scope()`: `tls_head = old_head`. -/
def scope.dtor (st : arena_state) (s : scope) : arena_state :=
  { st with tls_head := some s.old_head }

/-- The condition of the `assert(tls_head)` in the public static
`extensible_arena::allocate(n, align)`. -/
def assert_tls_head (st : arena_state) : Bool :=
  st.tls_head.isSome

/-- The public static `extensible_arena::allocate(n, align)`: assert
`tls_head` and forward to the chain-level allocate through it.  A failed
assertion (null `tls_head`) is modelled as `(none, st)`: no allocation
happens and no state changes.  On success the result records which arena
served the request and at which offset of its head block. -/
def extensible_arena.allocate (st : arena_state) (n align : Nat) :
    Option (Nat × Nat) × arena_state :=
  match st.tls_head with
  | none => (none, st)
  | some i =>
    match st.arenas.get? i with
    | none => (none, st)
    | some c =>
      match arena_allocate c n align with
      | (r, c2) => (r.map fun off => (i, off), { st with arenas := st.arenas.set i c2 })

/-- `arena_allocator<T>::deallocate(T*, std::size_t)`: an empty body — it
touches no state at all. -/
def arena_allocator.deallocate (st : arena_state) (_ptr _n : Nat) : arena_state :=
  st

/-- A client-visible call into the allocator surface, for stating frame
properties of `deallocate` over whole call sequences. -/
inductive event where
  | alloc (n align : Nat)
  | dealloc (ptr n : Nat)
deriving DecidableEq

/-- Whether an event is a `deallocate` call. -/
def event.isDealloc : event → Bool
  | .dealloc _ _ => true
  | .alloc _ _ => false

/-- Effect of one call on the thread's arena state. -/
def step (st : arena_state) : event → arena_state
  | .alloc n align => (extensible_arena.allocate st n align).2
  | .dealloc p n => arena_allocator.deallocate st p n

/-- Effect of a sequence of calls. -/
def run (st : arena_state) (es : List event) : arena_state :=
  es.foldl step st

/-- Fold a list of `(n, align)` requests through one block with
`list_node::allocate`, adding up the bytes each successful call carved out
of the block (alignment padding included — the advance of `size`). -/
def alloc_seq (b : list_node) : List (Nat × Nat) → list_node × Nat
  | [] => (b, 0)
  | r :: rs =>
    match b.allocate r.1 r.2 with
    | (some _, b2) =>
      match alloc_seq b2 rs with
      | (bf, t) => (bf, (b2.size - b.size) + t)
    | (none, b2) => alloc_seq b2 rs

/-- Clearing the low `k` bits of `x < 2^64` with the mask `2^64 - 2^k`
rounds `x` down to a multiple of `2^k`. -/
theorem land_high_mask (x k : Nat) (hk : k ≤ 64) (hx : x < 2 ^ 64) :
    x &&& (2 ^ 64 - 2 ^ k) = x / 2 ^ k * 2 ^ k := by
  have hmul : (2 : Nat) ^ k * 2 ^ (64 - k) = 2 ^ 64 := by
    rw [← pow_add]
    congr 1
    omega
  have hsplit : (2 : Nat) ^ 64 - 2 ^ k = 2 ^ k * (2 ^ (64 - k) - 1) := by
    rw [Nat.mul_sub, hmul, Nat.mul_one]
  apply Nat.eq_of_testBit_eq
  intro i
  rw [Nat.testBit_and, hsplit, Nat.testBit_mul_pow_two,
    Nat.mul_comm (x / 2 ^ k) (2 ^ k), Nat.testBit_mul_pow_two,
    Nat.testBit_two_pow_sub_one]
  by_cases hik : k ≤ i
  · have htb : (x / 2 ^ k).testBit (i - k) = x.testBit i := by
      rw [Nat.testBit_to_div_mod, Nat.testBit_to_div_mod, Nat.div_div_eq_div_mul,
        ← pow_add]
      have hki : k + (i - k) = i := by omega
      rw [hki]
    by_cases hi64 : i < 64
    · have h2 : i - k < 64 - k := by omega
      simp [hik, htb, h2]
    · have hxi : x.testBit i = false :=
        Nat.testBit_lt_two_pow
          (lt_of_lt_of_le hx (Nat.pow_le_pow_right (by norm_num) (by omega)))
      simp [hik, htb, hxi]
  · simp [hik]

/-- `alignUp` at a power-of-two alignment `2^k`, `k ≤ 64`, rounds
`size + 2^k - 1` (reduced modulo `2^64`) down to a multiple of `2^k`. -/
theorem alignUp_pow2 (s k : Nat) (hk : k ≤ 64) :
    alignUp s (2 ^ k) = ((s + 2 ^ k - 1) % 2 ^ 64) / 2 ^ k * 2 ^ k := by
  have h1 : (1 : Nat) ≤ 2 ^ k := Nat.one_le_two_pow
  have h2 : (2 : Nat) ^ k ≤ 2 ^ 64 := Nat.pow_le_pow_right (by norm_num) hk
  have h3 : (2 ^ k + word - 1) % word = 2 ^ k - 1 := by
    rw [word]
    omega
  have h4 : word - 1 - (2 ^ k - 1) = 2 ^ 64 - 2 ^ k := by
    rw [word]
    omega
  rw [alignUp, h3, h4]
  have h5 : (s + (2 ^ k - 1)) % word = (s + 2 ^ k - 1) % 2 ^ 64 := by
    have h6 : s + (2 ^ k - 1) = s + 2 ^ k - 1 := by omega
    rw [word, h6]
  rw [h5]
  exact land_high_mask _ k hk (Nat.mod_lt _ (by norm_num))

/-- `alignUp` at an alignment `2^k` with `k > 64` (not representable in
`size_t`; listed for completeness of the model) collapses to offset `0`. -/
theorem alignUp_pow2_big (s k : Nat) (hk : 64 < k) : alignUp s (2 ^ k) = 0 := by
  have hsplit : (2 : Nat) ^ k = 2 ^ 64 * 2 ^ (k - 64) := by
    rw [← pow_add]
    congr 1
    omega
  have hmod : (2 : Nat) ^ k % 2 ^ 64 = 0 := by
    rw [hsplit]
    exact Nat.mul_mod_right _ _
  have h1 : (1 : Nat) ≤ 2 ^ k := Nat.one_le_two_pow
  have h3 : (2 ^ k + word - 1) % word = word - 1 := by
    rw [word]
    omega
  rw [alignUp, h3]
  simp

/-- The rounded offset is a multiple of the (power-of-two) alignment. -/
theorem alignUp_mod (s k : Nat) : alignUp s (2 ^ k) % 2 ^ k = 0 := by
  by_cases hk : k ≤ 64
  · rw [alignUp_pow2 s k hk]
    exact Nat.mul_mod_left _ _
  · rw [alignUp_pow2_big s k (by omega)]
    exact Nat.zero_mod _

/-- Without `size_t` wraparound, rounding up does not pass below `size`. -/
theorem le_alignUp (s k : Nat) (hof : s + 2 ^ k - 1 < 2 ^ 64) :
    s ≤ alignUp s (2 ^ k) := by
  have h1 : (1 : Nat) ≤ 2 ^ k := Nat.one_le_two_pow
  have hk : k ≤ 64 := by
    by_contra hgt
    have hbig : (2 : Nat) ^ 65 ≤ 2 ^ k := Nat.pow_le_pow_right (by norm_num) (by omega)
    omega
  rw [alignUp_pow2 s k hk, Nat.mod_eq_of_lt hof]
  have h7 : s + 2 ^ k - 1 < (s + 2 ^ k - 1) / 2 ^ k * 2 ^ k + 2 ^ k :=
    Nat.lt_div_mul_add Nat.one_le_two_pow
  generalize (s + 2 ^ k - 1) / 2 ^ k * 2 ^ k = Q at h7 ⊢
  omega

/-- The rounded offset never exceeds `size + align - 1` (mod `2^64`). -/
theorem alignUp_le (s k : Nat) (hk : k ≤ 64) :
    alignUp s (2 ^ k) ≤ (s + 2 ^ k - 1) % 2 ^ 64 := by
  rw [alignUp_pow2 s k hk]
  exact Nat.div_mul_le_self _ _

/-- What a successful `list_node::allocate` means: the returned offset is the
rounded-up `size`, the capacity is untouched, the new `size` is the end of
the carved region, and that end fits in the capacity. -/
theorem allocate_eq_some (b : list_node) {n align start : Nat} {b2 : list_node}
    (h : b.allocate n align = (some start, b2)) :
    start = alignUp b.size align ∧ b2.capacity = b.capacity ∧
      b2.size = (alignUp b.size align + n) % word ∧
      (alignUp b.size align + n) % word ≤ b.capacity := by
  rw [list_node.allocate] at h
  split at h
  · simp at h
  next hc =>
    simp only [Prod.mk.injEq, Option.some.injEq] at h
    obtain ⟨h1, h2⟩ := h
    subst h1
    refine ⟨rfl, ?_, ?_, by omega⟩
    · rw [← h2]
    · rw [← h2]

/-- What a failed `list_node::allocate` means: the carved end missed the
capacity, the result is null, and the node is returned untouched. -/
theorem allocate_eq_none (b : list_node) {n align : Nat} {b2 : list_node}
    (h : b.allocate n align = (none, b2)) :
    b2 = b ∧ b.capacity < (alignUp b.size align + n) % word := by
  rw [list_node.allocate] at h
  split at h
  next hc =>
    simp only [Prod.mk.injEq] at h
    exact ⟨h.2.symm, by omega⟩
  · simp at h

/-- Rounding up at a power-of-two alignment stays below `size + align`. -/
theorem alignUp_le_self_add (s align : Nat) (hpow : ∃ k, align = 2 ^ k) :
    alignUp s align ≤ s + align - 1 := by
  obtain ⟨k, rfl⟩ := hpow
  by_cases hk : k ≤ 64
  · calc alignUp s (2 ^ k) ≤ (s + 2 ^ k - 1) % 2 ^ 64 := alignUp_le s k hk
      _ ≤ s + 2 ^ k - 1 := Nat.mod_le _ _
  · rw [alignUp_pow2_big s k (by omega)]
    exact Nat.zero_le _

/-- Capacity is never changed by `list_node::allocate`. -/
theorem allocate_capacity_const (b : list_node) (n align : Nat) :
    ((b.allocate n align).2).capacity = b.capacity := by
  simp only [list_node.allocate]
  split <;> rfl

/-- The invariant `size ≤ capacity` is preserved by `list_node::allocate`. -/
theorem allocate_size_le_capacity (b : list_node) (n align : Nat)
    (h : b.size ≤ b.capacity) :
    ((b.allocate n align).2).size ≤ ((b.allocate n align).2).capacity := by
  rcases hres : b.allocate n align with ⟨r, b2⟩
  cases r with
  | none =>
    obtain ⟨hb, _⟩ := allocate_eq_none b hres
    simp [hb, h]
  | some start =>
    obtain ⟨_, hcap, hsize, hle⟩ := allocate_eq_some b hres
    simp only
    rw [hcap, hsize]
    exact hle

/-- Without `size_t` wraparound, a `list_node::allocate` call at a
power-of-two alignment never lowers `size`. -/
theorem allocate_size_mono (b : list_node) (n align : Nat)
    (hpow : ∃ k, align = 2 ^ k)
    (h1 : b.size + align - 1 < 2 ^ 64)
    (h2 : alignUp b.size align + n < 2 ^ 64) :
    b.size ≤ ((b.allocate n align).2).size := by
  obtain ⟨k, rfl⟩ := hpow
  rcases hres : b.allocate n (2 ^ k) with ⟨r, b2⟩
  cases r with
  | none =>
    obtain ⟨hb, _⟩ := allocate_eq_none b hres
    simp [hb]
  | some start =>
    obtain ⟨_, _, hsize, _⟩ := allocate_eq_some b hres
    have hle := le_alignUp b.size k h1
    have hmod : (alignUp b.size (2 ^ k) + n) % word = alignUp b.size (2 ^ k) + n := by
      rw [word]
      exact Nat.mod_eq_of_lt h2
    simp only
    rw [hsize, hmod]
    omega

/-- Telescoped carve sum: with power-of-two alignments and per-request
bounds ruling out `size_t` wraparound, the bytes a request list carves out
of one block add up to the block's growth in `size`, which stays within its
capacity. -/
theorem alloc_seq_le (rs : List (Nat × Nat)) (b : list_node)
    (hwf : b.size ≤ b.capacity)
    (H : ∀ r ∈ rs, (∃ k, r.2 = 2 ^ k) ∧ b.capacity + r.2 + r.1 ≤ 2 ^ 64) :
    (alloc_seq b rs).2 + b.size ≤ b.capacity := by
  induction rs generalizing b with
  | nil => simpa [alloc_seq] using hwf
  | cons r rs ih =>
    obtain ⟨hpow, hbound⟩ := H r (by simp)
    have hone : 1 ≤ r.2 := by
      obtain ⟨k, hk⟩ := hpow
      rw [hk]
      exact Nat.one_le_two_pow
    rcases hres : b.allocate r.1 r.2 with ⟨res, b2⟩
    have hcap : b2.capacity = b.capacity := by
      have h := allocate_capacity_const b r.1 r.2
      rw [hres] at h
      exact h
    have hwf2 : b2.size ≤ b2.capacity := by
      have h := allocate_size_le_capacity b r.1 r.2 hwf
      rw [hres] at h
      exact h
    have H2 : ∀ q ∈ rs, (∃ k2, q.2 = 2 ^ k2) ∧ b2.capacity + q.2 + q.1 ≤ 2 ^ 64 := by
      intro q hq
      rw [hcap]
      exact H q (by simp [hq])
    cases res with
    | none =>
      obtain ⟨hb, _⟩ := allocate_eq_none b hres
      subst hb
      simp only [alloc_seq, hres]
      exact ih _ hwf2 H2
    | some start =>
      have hau : alignUp b.size r.2 ≤ b.size + r.2 - 1 := alignUp_le_self_add _ _ hpow
      have hmono : b.size ≤ b2.size := by
        have h := allocate_size_mono b r.1 r.2 hpow (by omega) (by omega)
        rw [hres] at h
        exact h
      have hgoal := ih b2 hwf2 H2
      rcases hseq : alloc_seq b2 rs with ⟨bf, t⟩
      rw [hseq] at hgoal
      simp only [alloc_seq, hres, hseq]
      rw [hcap] at hgoal
      simp only at hgoal
      omega

/-- C1 (counterexample to the claim): `scope`'s constructor saves the
address of its own arena's head slot — not the previous thread-local
binding — so destruction does not restore the pre-construction binding.
With nested scopes S1 (arena 0) then S2 (arena 1) closed in LIFO order:
S2's destruction leaves `tls_head` at arena 1, the allocation between the
two destructions is served from arena 1 (not arena 0), and S1's destruction
leaves `tls_head` at arena 0 instead of restoring the original null. -/
theorem C1_scope_restore_fails :
    scope.ctor (⟨[⟨⟨64, 0⟩, []⟩, ⟨⟨64, 0⟩, []⟩], none⟩ : arena_state) 0
      = (⟨[⟨⟨64, 0⟩, []⟩, ⟨⟨64, 0⟩, []⟩], some 0⟩, ⟨0⟩) ∧
    scope.ctor (⟨[⟨⟨64, 0⟩, []⟩, ⟨⟨64, 0⟩, []⟩], some 0⟩ : arena_state) 1
      = (⟨[⟨⟨64, 0⟩, []⟩, ⟨⟨64, 0⟩, []⟩], some 1⟩, ⟨1⟩) ∧
    scope.dtor (⟨[⟨⟨64, 0⟩, []⟩, ⟨⟨64, 0⟩, []⟩], some 1⟩ : arena_state) ⟨1⟩
      = ⟨[⟨⟨64, 0⟩, []⟩, ⟨⟨64, 0⟩, []⟩], some 1⟩ ∧
    extensible_arena.allocate (⟨[⟨⟨64, 0⟩, []⟩, ⟨⟨64, 0⟩, []⟩], some 1⟩ : arena_state) 8 1
      = (some (1, 0), ⟨[⟨⟨64, 0⟩, []⟩, ⟨⟨64, 8⟩, []⟩], some 1⟩) ∧
    scope.dtor (⟨[⟨⟨64, 0⟩, []⟩, ⟨⟨64, 8⟩, []⟩], some 1⟩ : arena_state) ⟨0⟩
      = ⟨[⟨⟨64, 0⟩, []⟩, ⟨⟨64, 8⟩, []⟩], some 0⟩ := by
  refine ⟨rfl, rfl, rfl, by decide, rfl⟩

/-- C2 (counterexample to the claim): the growth path sizes the new block
with `std::min(head->capacity, n)`, not `max`.  With a head of capacity 64
already holding 40 bytes, a second 40-byte request (align 1) grows the
chain with a block of capacity 40 — not the claimed `max(64, 40) = 64`. -/
theorem C2_growth_capacity_is_min :
    arena_allocate ⟨list_node.mk 64 40, []⟩ 40 1
      = (some 0, ⟨list_node.mk 40 40, [list_node.mk 64 40]⟩) ∧
    ((arena_allocate ⟨list_node.mk 64 40, []⟩ 40 1).2.head.capacity = min 64 40 ∧
      (arena_allocate ⟨list_node.mk 64 40, []⟩ 40 1).2.head.capacity ≠ max 64 40) := by
  exact ⟨by decide, by decide, by decide⟩

/-- C3 (counterexample to the claim): an oversized request (n = 100 larger
than the configured capacity 64) grows the chain with a block of capacity
`min(64, 100) = 64`, the retry fails against it as well, and the
chain-level allocate returns a silent null instead of succeeding. -/
theorem C3_oversized_request_returns_null :
    arena_allocate ⟨list_node.make 64, []⟩ 100 1
      = (none, ⟨list_node.mk 64 0, [list_node.mk 64 0]⟩) := by
  decide

/-- C4: a block-level request whose carved end (the code's `past`, computed
in `size_t` arithmetic) exceeds the block's capacity returns a null result
and leaves the node — its `size` field included — unchanged. -/
theorem C4_no_room_fails_without_mutation (b : list_node) (n align : Nat)
    (h : b.capacity < (alignUp b.size align + n) % word) :
    b.allocate n align = (none, b) := by
  simp [list_node.allocate, h]

/-- C4 witness: a block of capacity 64 holding 40 bytes rejects a 40-byte
request and is returned unchanged. -/
theorem C4_witness :
    (64 : Nat) < (alignUp 40 1 + 40) % word ∧
    (list_node.mk 64 40).allocate 40 1 = (none, list_node.mk 64 40) :=
  ⟨by decide, C4_no_room_fails_without_mutation (list_node.mk 64 40) 40 1 (by decide)⟩

/-- C5: a successful block-level allocation at a power-of-two alignment
`2^k` returns an offset that is a multiple of `2^k`; absent `size_t`
wraparound the offset is exactly the block's `size` rounded up to the
nearest multiple of `2^k` (the least aligned offset not below `size`). -/
theorem C5_returned_offset_is_aligned (b : list_node) (n k start : Nat)
    (b2 : list_node) (h : b.allocate n (2 ^ k) = (some start, b2)) :
    start % 2 ^ k = 0 ∧
      (b.size + 2 ^ k - 1 < 2 ^ 64 →
        start = (b.size + 2 ^ k - 1) / 2 ^ k * 2 ^ k ∧
          b.size ≤ start ∧ start < b.size + 2 ^ k) := by
  obtain ⟨h1, _, _, _⟩ := allocate_eq_some b h
  subst h1
  refine ⟨alignUp_mod _ _, fun hof => ?_⟩
  have hk : k ≤ 64 := by
    by_contra hgt
    have hbig : (2 : Nat) ^ 65 ≤ 2 ^ k := Nat.pow_le_pow_right (by norm_num) (by omega)
    have hone : (1 : Nat) ≤ 2 ^ k := Nat.one_le_two_pow
    omega
  have hone : (1 : Nat) ≤ 2 ^ k := Nat.one_le_two_pow
  have hup : alignUp b.size (2 ^ k) ≤ b.size + 2 ^ k - 1 :=
    alignUp_le_self_add _ _ ⟨k, rfl⟩
  refine ⟨?_, le_alignUp _ _ hof, by omega⟩
  rw [alignUp_pow2 _ _ hk, Nat.mod_eq_of_lt hof]

/-- C5 witness: from a block of capacity 64 holding 3 bytes, a 4-byte
request at alignment `2^2 = 4` lands at offset 4, a multiple of 4 and the
rounding-up of 3. -/
theorem C5_witness :
    (list_node.mk 64 3).allocate 4 (2 ^ 2) = (some 4, list_node.mk 64 8) ∧
    ((4 : Nat) % 2 ^ 2 = 0 ∧
      ((3 : Nat) + 2 ^ 2 - 1 < 2 ^ 64 →
        (4 : Nat) = ((3 : Nat) + 2 ^ 2 - 1) / 2 ^ 2 * 2 ^ 2 ∧
          (3 : Nat) ≤ 4 ∧ (4 : Nat) < 3 + 2 ^ 2)) :=
  ⟨by decide,
    C5_returned_offset_is_aligned (list_node.mk 64 3) 4 2 4 (list_node.mk 64 8)
      (by decide)⟩

/-- C6 (counterexample to the claim): `size_t` wraparound in
`past = start + n` lets an absurdly large request "succeed" while
shrinking `size`.  A block of capacity 100 holding 50 bytes — reachable by
a 50-byte allocation from a fresh block — accepts a request of `2^64 - 30`
bytes and its `size` drops from 50 to 20, refuting "size never decreases"
(and with it the carve-sum bound) as stated over all machine inputs. -/
theorem C6_size_decreases_on_wraparound :
    ((list_node.make 100).allocate 50 1).2 = list_node.mk 100 50 ∧
    (list_node.mk 100 50).allocate (2 ^ 64 - 30) 1 = (some 50, list_node.mk 100 20) ∧
    ¬ (list_node.mk 100 50).size ≤
        ((list_node.mk 100 50).allocate (2 ^ 64 - 30) 1).2.size := by
  exact ⟨by decide, by decide, by decide⟩

/-- C6 amended: `0 ≤ size ≤ capacity` holds at creation and is preserved by
every operation, and `capacity` never changes, unconditionally; provided a
request cannot wrap the `size_t` arithmetic (power-of-two alignment and
in-range sums), `size` never decreases, and the bytes successfully carved
out of one block (alignment padding included) sum to at most its capacity;
a request the head block has no room for triggers chain growth instead of
being satisfied in place. -/
theorem C6_block_invariants :
    (∀ (b : list_node) (n align : Nat),
        ((b.allocate n align).2).capacity = b.capacity) ∧
    (∀ c : Nat, (list_node.make c).size = 0 ∧ (list_node.make c).capacity = c) ∧
    (∀ (b : list_node) (n align : Nat), b.size ≤ b.capacity →
        ((b.allocate n align).2).size ≤ ((b.allocate n align).2).capacity) ∧
    (∀ (b : list_node) (n align : Nat), (∃ k, align = 2 ^ k) →
        b.size + align - 1 < 2 ^ 64 → alignUp b.size align + n < 2 ^ 64 →
        b.size ≤ ((b.allocate n align).2).size) ∧
    (∀ (c : Nat) (rs : List (Nat × Nat)),
        (∀ r ∈ rs, (∃ k, r.2 = 2 ^ k) ∧ c + r.2 + r.1 ≤ 2 ^ 64) →
        (alloc_seq (list_node.make c) rs).2 ≤ c) ∧
    (∀ (ch : chain) (n align : Nat), (ch.head.allocate n align).1 = none →
        ((arena_allocate ch n align).2).rest = ch.head :: ch.rest) := by
  refine ⟨allocate_capacity_const, fun c => ⟨rfl, rfl⟩, allocate_size_le_capacity,
    allocate_size_mono, ?_, ?_⟩
  · intro c rs H
    have h := alloc_seq_le rs (list_node.make c) (Nat.zero_le c) H
    simpa [list_node.make] using h
  · intro ch n align hfail
    rcases hres : ch.head.allocate n align with ⟨r, h0⟩
    rw [hres] at hfail
    simp only at hfail
    subst hfail
    obtain ⟨hb, _⟩ := allocate_eq_none ch.head hres
    subst hb
    rcases hres2 : (list_node.make (min ch.head.capacity n)).allocate n align with ⟨r2, nh⟩
    simp [arena_allocate, hres, hres2]

/-- C6 witness: instances of the amended conjuncts with their hypotheses
discharged on concrete inputs. -/
theorem C6_witness :
    ((list_node.mk 128 64).size ≤ (list_node.mk 128 64).capacity ∧
      (∃ k, (2 : Nat) = 2 ^ k) ∧ (64 : Nat) + 2 - 1 < 2 ^ 64 ∧
      alignUp 64 2 + 8 < 2 ^ 64) ∧
    ((list_node.mk 128 64).allocate 8 2).2.size ≤
        ((list_node.mk 128 64).allocate 8 2).2.capacity ∧
    (list_node.mk 128 64).size ≤ ((list_node.mk 128 64).allocate 8 2).2.size ∧
    (alloc_seq (list_node.make 64) [(40, 1), (40, 1)]).2 ≤ 64 ∧
    ((⟨list_node.mk 64 40, []⟩ : chain).head.allocate 40 1).1 = none ∧
    (arena_allocate ⟨list_node.mk 64 40, []⟩ 40 1).2.rest = [list_node.mk 64 40] :=
  ⟨⟨by decide, ⟨1, by decide⟩, by decide, by decide⟩,
    C6_block_invariants.2.2.1 (list_node.mk 128 64) 8 2 (by decide),
    C6_block_invariants.2.2.2.1 (list_node.mk 128 64) 8 2 ⟨1, by decide⟩
      (by decide) (by decide),
    C6_block_invariants.2.2.2.2.1 64 [(40, 1), (40, 1)]
      (by
        intro r hr
        simp only [List.mem_cons, List.mem_singleton] at hr
        rcases hr with h | h | h <;> first
          | (subst h; exact ⟨⟨0, by decide⟩, by decide⟩)
          | exact absurd h (by simp)),
    by decide,
    C6_block_invariants.2.2.2.2.2 ⟨list_node.mk 64 40, []⟩ 40 1 (by decide)⟩

/-- C7: a successful block-level allocation returns the rounded-up start
offset and (absent `size_t` wraparound) advances `size` to exactly the end
of the carved region, the start offset plus `n`, leaving `capacity` alone;
the first allocation from a fresh block at alignment 1 and a representable
in-capacity size lands at offset 0. -/
theorem C7_success_advances_size :
    (∀ (b : list_node) (n align start : Nat) (b2 : list_node),
        b.allocate n align = (some start, b2) →
        alignUp b.size align + n < 2 ^ 64 →
        start = alignUp b.size align ∧ b2.size = start + n ∧
          b2.capacity = b.capacity) ∧
    (∀ c n : Nat, n ≤ c → n < 2 ^ 64 →
        (list_node.make c).allocate n 1 = (some 0, list_node.mk c n)) := by
  constructor
  · intro b n align start b2 h hof
    obtain ⟨h1, h2, h3, _⟩ := allocate_eq_some b h
    subst h1
    refine ⟨rfl, ?_, h2⟩
    rw [h3, word, Nat.mod_eq_of_lt hof]
  · intro c n hle hlt
    have ha : alignUp 0 1 = 0 := by decide
    simp only [list_node.make, list_node.allocate, ha, word, Nat.zero_add,
      Nat.mod_eq_of_lt hlt]
    rw [if_neg (by omega)]

/-- C7 witness: an aligned in-bounds request advances `size` to the carved
end, and a fresh block of capacity 64 serves 40 bytes at offset 0. -/
theorem C7_witness :
    ((list_node.mk 64 8).allocate 4 4 = (some 8, list_node.mk 64 12) ∧
      alignUp 8 4 + 4 < 2 ^ 64) ∧
    (8 = alignUp 8 4 ∧ (list_node.mk 64 12).size = 8 + 4 ∧
      (list_node.mk 64 12).capacity = (list_node.mk 64 8).capacity) ∧
    ((40 : Nat) ≤ 64 ∧ (40 : Nat) < 2 ^ 64) ∧
    (list_node.make 64).allocate 40 1 = (some 0, list_node.mk 64 40) :=
  ⟨⟨by decide, by decide⟩,
    C7_success_advances_size.1 (list_node.mk 64 8) 4 4 8 (list_node.mk 64 12)
      (by decide) (by decide),
    ⟨by decide, by decide⟩,
    C7_success_advances_size.2 64 40 (by decide) (by decide)⟩

/-- C8: the `assert(tls_head)` condition fails exactly when no thread-local
binding is installed; a scope's construction installs one, after which the
assertion holds; and a static-entry-point call with no binding installed
performs no allocation and changes no state. -/
theorem C8_assert_fires_iff_no_binding :
    (∀ st : arena_state, (assert_tls_head st = false ↔ st.tls_head = none)) ∧
    (∀ (st : arena_state) (a : Nat), assert_tls_head (scope.ctor st a).1 = true) ∧
    (∀ (st : arena_state) (n align : Nat), st.tls_head = none →
        extensible_arena.allocate st n align = (none, st)) := by
  refine ⟨?_, ?_, ?_⟩
  · intro st
    cases h : st.tls_head <;> simp [assert_tls_head, h]
  · intro st a
    simp [assert_tls_head, scope.ctor]
  · intro st n align h
    simp only [extensible_arena.allocate, h]

/-- C8 witness: on a thread that never created a scope the binding is null
and the static entry point allocates nothing. -/
theorem C8_witness :
    (⟨[], none⟩ : arena_state).tls_head = none ∧
    extensible_arena.allocate (⟨[], none⟩ : arena_state) 8 1 = (none, ⟨[], none⟩) :=
  ⟨rfl, C8_assert_fires_iff_no_binding.2.2 ⟨[], none⟩ 8 1 rfl⟩

/-- C9: `arena_allocator::deallocate` is a no-op: it returns the state
unchanged, any subsequent allocation behaves exactly as without it, and a
call sequence is equivalent to the same sequence with every deallocation
removed. -/
theorem C9_deallocate_is_noop :
    (∀ (st : arena_state) (p n : Nat), arena_allocator.deallocate st p n = st) ∧
    (∀ (st : arena_state) (p m n align : Nat),
        extensible_arena.allocate (arena_allocator.deallocate st p m) n align
          = extensible_arena.allocate st n align) ∧
    (∀ (st : arena_state) (es : List event),
        run st es = run st (es.filter fun e => ! e.isDealloc)) := by
  refine ⟨fun _ _ _ => rfl, fun _ _ _ _ _ => rfl, ?_⟩
  intro st es
  induction es generalizing st with
  | nil => rfl
  | cons e es ih =>
    cases e with
    | alloc n align =>
      rw [List.filter_cons]
      simp only [event.isDealloc, Bool.not_false, if_pos]
      exact ih _
    | dealloc p n =>
      rw [List.filter_cons]
      simp only [event.isDealloc, Bool.not_true, if_neg]
      exact ih st

/-- C10: the pointer a scope saves at construction is the address of the
constructed-on arena's own head slot, and after the destructor runs the
thread-local binding designates that arena's head slot — in particular it
is non-null even when no binding existed before the scope was created. -/
theorem C10_scope_saves_own_head :
    ∀ (st st2 : arena_state) (a : Nat),
      (scope.ctor st a).2 = ⟨a⟩ ∧
      (scope.dtor st2 (scope.ctor st a).2).tls_head = some a ∧
      (scope.dtor st2 (scope.ctor st a).2).tls_head ≠ none := by
  intro st st2 a
  exact ⟨rfl, rfl, by simp [scope.dtor, scope.ctor]⟩

/-- C10 witness: a scope on arena 5, created while no binding was
installed, leaves the binding at arena 5's head slot after destruction. -/
theorem C10_witness :
    (scope.ctor (⟨[], none⟩ : arena_state) 5).2 = ⟨5⟩ ∧
    (scope.dtor ⟨[], none⟩ (scope.ctor (⟨[], none⟩ : arena_state) 5).2).tls_head
        = some 5 ∧
    (scope.dtor ⟨[], none⟩ (scope.ctor (⟨[], none⟩ : arena_state) 5).2).tls_head
        ≠ none :=
  C10_scope_saves_own_head ⟨[], none⟩ ⟨[], none⟩ 5

end Corvid.Arena
